import Mathlib

/-
Verification of the formula-detection / OCR-dispatch / markdown-patching
pipeline of the pdf-to-md repository (src/pdf2md/formula_ocr.py and
src/pdf2md/converter.py), as a shallow embedding in Lean 4.

Modelling conventions:
* Python strings are modelled as `List Char`; `str.isspace` is modelled by
  `Char.isWhitespace` (the inputs of interest are ASCII).
* Python floats (page geometry) are modelled as exact rationals `ℚ`.
* Fallible operations are modelled with `Option` / `Except`; external
  collaborators (pymupdf page layout, the page renderer, the OpenRouter
  HTTP call) are oracle parameters.
* The compiled regular expressions produced by `build_search_pattern`
  always have the shape  F c1 F c2 F ... cn F  where F = [\s_*\x5b\x5d]{0,6}
  and the ci are escaped literal characters; the matcher `search` below
  implements Python `re.search` semantics (leftmost start, greedy
  quantifiers with backtracking) for exactly this pattern family, so a
  pattern is represented by its list of anchor characters.
-/

namespace Pdf2Md

/-- `MIN_FORMULA_CHARS` from formula_ocr.py. -/
def MIN_FORMULA_CHARS : Nat := 3

/-- `RENDER_DPI` from formula_ocr.py. -/
def RENDER_DPI : Nat := 300

/-- `CROP_PADDING` from formula_ocr.py. -/
def CROP_PADDING : Nat := 5

/-- Axis-aligned rectangle in PDF points, mirroring pymupdf rectangles and
the `(x0, y0, x1, y1)` bbox tuples of formula_ocr.py. -/
structure Rect where
  x0 : ℚ
  y0 : ℚ
  x1 : ℚ
  y1 : ℚ
deriving DecidableEq

/-- Union of two rectangles (pymupdf `Rect.__ior__` for normalized rects). -/
def rectUnion (a b : Rect) : Rect :=
  ⟨min a.x0 b.x0, min a.y0 b.y0, max a.x1 b.x1, max a.y1 b.y1⟩

/-- One pymupdf text span dict: text, font name, style flags, bbox. -/
structure Span where
  text : List Char
  font : String
  flags : Nat
  bbox : Rect
deriving DecidableEq

/-- The `FormulaRegion` dataclass of formula_ocr.py. -/
structure FormulaRegion where
  page_num : Nat
  bbox : Rect
  is_display : Bool
  spans : List Span
  raw_chars : List Char
  latex : List Char
deriving DecidableEq

/-- The math font families of `MATH_FONT_RE` in formula_ocr.py. -/
def mathFontNames : List String :=
  ["CMMI", "CMSY", "CMEX", "CMR", "CMSS", "MSBM", "EUFM", "MSAM"]

/-- List-level prefix test (kept executable by kernel reduction). -/
def listStartsWith : List Char → List Char → Bool
  | [], _ => true
  | _ :: _, [] => false
  | a :: as, b :: bs => decide (a = b) && listStartsWith as bs

/-- `is_math_font`: the regex `^(CMMI|CMSY|CMEX|CMR|CMSS|MSBM|EUFM|MSAM)`
with `re.IGNORECASE`, applied with `.search`, matches exactly when the font
name starts (case-insensitively) with one of the family names. -/
def is_math_font (font : String) : Bool :=
  mathFontNames.any (fun f => listStartsWith f.data (font.data.map Char.toUpper))

/-- `_extract_raw_chars`: all non-whitespace characters of the spans,
in order. -/
def _extract_raw_chars (spans : List Span) : List Char :=
  (spans.map (fun s => s.text.filter (fun c => !c.isWhitespace))).flatten

/-- Whether the span group has more than one distinct font name
(`len({s.get("font", "") for s in spans}) > 1`). -/
def mixedFonts : List Span → Bool
  | [] => false
  | s :: rest => rest.any (fun t => decide (t.font ≠ s.font))

/-- `_has_math_structure`: some span has flag bit 0 (superscript) set, or
the group spans more than one distinct font name. -/
def _has_math_structure (spans : List Span) : Bool :=
  spans.any (fun s => decide (s.flags % 2 = 1)) || mixedFonts spans

/-- Python truthiness of `span.text.strip()`: True (blank) iff every
character of the text is whitespace. -/
def spanBlank (s : Span) : Bool :=
  s.text.all Char.isWhitespace

/-- Python `str.strip()` on a character list. -/
def pyStrip (s : List Char) : List Char :=
  ((s.dropWhile Char.isWhitespace).reverse.dropWhile Char.isWhitespace).reverse

/-- The two `while` loops of `_build_region` that drop leading and trailing
whitespace-only spans. -/
def stripBlankEnds (spans : List Span) : List Span :=
  ((spans.dropWhile spanBlank).reverse.dropWhile spanBlank).reverse

/-- `_build_region` from formula_ocr.py: filters trivially small groups,
strips blank padding spans, computes the union bbox of the content spans,
classifies display vs. inline, and assembles the `FormulaRegion`.
The `| [] => none` branch is unreachable (the guard ensures at least two
non-whitespace characters, hence a non-blank span); in Python it would be
an `IndexError` on `rects[0]`. -/
def _build_region (page_num : Nat) (math_spans : List Span)
    (page_width : ℚ) (line_spans : List Span) : Option FormulaRegion :=
  let raw := _extract_raw_chars math_spans
  if raw.length < MIN_FORMULA_CHARS ∧
      (raw.length < 2 ∨ _has_math_structure math_spans = false) then
    none
  else
    let content := stripBlankEnds math_spans
    let bbox_spans := if content.isEmpty then math_spans else content
    match bbox_spans with
    | [] => none
    | b :: rest =>
      let union := rest.foldl (fun acc s => rectUnion acc s.bbox) b.bbox
      let nonMathLen :=
        ((line_spans.filter (fun s => !is_math_font s.font)).map
          (fun s => (pyStrip s.text).length)).sum
      let frac : ℚ := if 0 < page_width then (union.x1 - union.x0) / page_width else 0
      some ⟨page_num, union,
            decide ((3 : ℚ)/10 < frac) && decide (nonMathLen < 5),
            math_spans, raw, []⟩

/-- The merge test of `_merge_nearby_regions`: same page, vertical overlap
ratio strictly above 0.5 of the shorter height, horizontal gap strictly
below the threshold. -/
def shouldMerge (cur nxt : FormulaRegion) (xThreshold : ℚ) : Bool :=
  decide (cur.page_num = nxt.page_num)
  && (decide (0 < min (cur.bbox.y1 - cur.bbox.y0) (nxt.bbox.y1 - nxt.bbox.y0))
      && decide ((1 : ℚ)/2 <
          max 0 (min cur.bbox.y1 nxt.bbox.y1 - max cur.bbox.y0 nxt.bbox.y0) /
            min (cur.bbox.y1 - cur.bbox.y0) (nxt.bbox.y1 - nxt.bbox.y0)))
  && decide (nxt.bbox.x0 - cur.bbox.x1 < xThreshold)

/-- The merged region built inside `_merge_nearby_regions`: union bbox,
ORed display flags, concatenated spans and raw characters, empty latex. -/
def mergeTwo (cur nxt : FormulaRegion) : FormulaRegion :=
  ⟨cur.page_num,
   ⟨min cur.bbox.x0 nxt.bbox.x0, min cur.bbox.y0 nxt.bbox.y0,
    max cur.bbox.x1 nxt.bbox.x1, max cur.bbox.y1 nxt.bbox.y1⟩,
   cur.is_display || nxt.is_display,
   cur.spans ++ nxt.spans,
   cur.raw_chars ++ nxt.raw_chars,
   []⟩

/-- The forward pass of `_merge_nearby_regions`, with `cur` the current
accumulator region. -/
def mergeLoop (xThreshold : ℚ) : FormulaRegion → List FormulaRegion → List FormulaRegion
  | cur, [] => [cur]
  | cur, nxt :: rest =>
    if shouldMerge cur nxt xThreshold then mergeLoop xThreshold (mergeTwo cur nxt) rest
    else cur :: mergeLoop xThreshold nxt rest

/-- `_merge_nearby_regions` from formula_ocr.py (default threshold 3.0 is
passed explicitly by callers of this model). -/
def _merge_nearby_regions (regions : List FormulaRegion) (xThreshold : ℚ) :
    List FormulaRegion :=
  match regions with
  | [] => []
  | r :: rest => mergeLoop xThreshold r rest

/-- The character class `_MD_FILLER = [\s_*\x5b\x5d]` of formula_ocr.py. -/
def isFiller (c : Char) : Bool :=
  c.isWhitespace || c = '_' || c = '*' || c = '[' || c = ']'

/-- Length of the longest run of filler characters at the head of the text,
capped at `cap` (the maximal number of characters `F = filler{0,6}` can
consume). -/
def fillerRun : Nat → List Char → Nat
  | 0, _ => 0
  | _ + 1, [] => 0
  | cap + 1, c :: t => if isFiller c then fillerRun cap t + 1 else 0

/-- Backtracking matcher for the pattern `F c1 F c2 F ... cn F` anchored at
the start of `text` (`F` is an optional greedy run of at most 6 filler
characters).  Returns the number of characters consumed by the match that
Python's backtracking engine finds: each `F` first tries its longest
possible run and backtracks one character at a time. -/
def matchChain : List Char → List Char → Option Nat
  | [], text => some (fillerRun 6 text)
  | c :: rest, text =>
    ((List.range (fillerRun 6 text + 1)).reverse).findSome? (fun k =>
      match text.drop k with
      | [] => none
      | c2 :: t2 =>
        if c2 = c then (matchChain rest t2).map (fun n => k + 1 + n) else none)

/-- `re.search` main loop: try each start position from the left. -/
def searchAux (anchors : List Char) : List Char → Nat → Option (Nat × Nat)
  | [], pos =>
    match matchChain anchors [] with
    | some n => some (pos, pos + n)
    | none => none
  | c :: t, pos =>
    match matchChain anchors (c :: t) with
    | some n => some (pos, pos + n)
    | none => searchAux anchors t (pos + 1)

/-- `pattern.search(text)` for a pattern built by `build_search_pattern`:
returns the `(start, end)` span of the leftmost match, or `none`. -/
def search (anchors text : List Char) : Option (Nat × Nat) :=
  searchAux anchors text 0

/-- `build_search_pattern` from formula_ocr.py: no pattern for inputs
shorter than 2 characters; otherwise the pattern `F c1 F ... cn F`, which
this model represents by its anchor list.  (`re.compile` cannot fail here
because every anchor character is `re.escape`d, so the `except re.error`
branch is dead.) -/
def build_search_pattern (raw_chars : List Char) : Option (List Char) :=
  if raw_chars.length < 2 then none else some raw_chars

/-- Specification-side predicate (from the spec's wording, to be compared
with the compiled pattern): the anchor characters occur at the head of
`text` in order, with at most 6 filler characters between consecutive
anchors. -/
def specChain : List Char → List Char → Bool
  | [], _ => true
  | _ :: _, [] => false
  | c :: rest, t0 :: t1 =>
    decide (t0 = c) && (List.range 7).any (fun k =>
      (t1.take k).all isFiller && specChain rest (t1.drop k))

/-- Specification-side predicate: some position of `text` starts an
occurrence of the anchors in order with at most 6 fillers between
consecutive anchors (the spec's "matches ... exactly where each character
of the input appears in order with at most 6 filler characters between
consecutive characters"). -/
def specMatchable (anchors text : List Char) : Bool :=
  (List.range (text.length + 1)).any (fun s => specChain anchors (text.drop s))

/-- Specification-side predicate: `slice` consists exactly of the anchors
in order, with at most 6 filler characters before the first anchor, between
consecutive anchors, and after the last anchor — the shape of the text a
match consumes and replacement removes. -/
def specConsumed : List Char → List Char → Bool
  | [], text => decide (text.length ≤ 6) && text.all isFiller
  | c :: rest, text =>
    (List.range 7).any (fun k =>
      (text.take k).all isFiller &&
        (match text.drop k with
         | [] => false
         | c2 :: t2 => decide (c2 = c) && specConsumed rest t2))

/-- Stable insertion of a region into a list sorted by decreasing
`raw_chars` length: the region goes after every element whose key is
greater than or equal to its own, which is exactly the relative order
produced by Python's stable `list.sort(key=len, reverse=True)`. -/
def insertDesc (r : FormulaRegion) : List FormulaRegion → List FormulaRegion
  | [] => [r]
  | x :: xs =>
    if r.raw_chars.length ≤ x.raw_chars.length then x :: insertDesc r xs
    else r :: x :: xs

/-- `page_regions.sort(key=lambda r: len(r.raw_chars), reverse=True)`. -/
def sortByLenDesc (l : List FormulaRegion) : List FormulaRegion :=
  l.foldl (fun acc r => insertDesc r acc) []

/-- The replacement text: `$latex$` or `$$latex$$` with `latex` stripped. -/
def wrapLatex (r : FormulaRegion) : List Char :=
  if r.is_display then '$' :: '$' :: (pyStrip r.latex ++ ['$', '$'])
  else '$' :: (pyStrip r.latex ++ ['$'])

/-- The body of the inner region loop of `patch_markdown`: skip regions
with empty (stripped) latex, skip regions with no pattern or no match,
otherwise splice the delimited latex over the matched span. -/
def patchRegion (md : List Char) (r : FormulaRegion) : List Char :=
  if pyStrip r.latex = [] then md
  else
    match build_search_pattern r.raw_chars with
    | none => md
    | some anchors =>
      match search anchors md with
      | none => md
      | some se => md.take se.1 ++ wrapLatex r ++ md.drop se.2

/-- One page of `patch_markdown`: sort that page's regions by decreasing
raw-character length and patch them sequentially into the page text. -/
def patchPage (md : List Char) (regs : List FormulaRegion) : List Char :=
  (sortByLenDesc regs).foldl patchRegion md

/-- `"\n".join(pages)`. -/
def joinPages (pages : List (List Char)) : List Char :=
  List.intercalate ['\n'] pages

/-- `patch_markdown` from formula_ocr.py: group regions by page (in
original order), patch each page, join with newlines. -/
def patch_markdown (page_markdowns : List (List Char))
    (regions : List FormulaRegion) : List Char :=
  joinPages (page_markdowns.enum.map (fun pr =>
    patchPage pr.2 (regions.filter (fun r => decide (r.page_num = pr.1)))))

/-- Python `int()` on a rational: truncation toward zero. -/
def pyTrunc (q : ℚ) : ℤ :=
  if 0 ≤ q then ⌊q⌋ else ⌈q⌉

/-- `crop_formula_image` from formula_ocr.py, modelled on image and crop
dimensions.  The bitmap is `imgW × imgH` pixels; the bbox is scaled by
`dpi / 72`, truncated to ints, and clamped to `[0, imgW] × [0, imgH]`;
the result is the size of the white-padded output image
(`crop + 2 * CROP_PADDING` in each dimension).  `none` models the
`ValueError` that `PIL.Image.crop` raises when the clamped box is
inverted (`right < left` or `lower < upper`), which happens exactly when
the scaled bbox lies strictly outside the bitmap. -/
def crop_formula_image (imgW imgH : Nat) (bbox : Rect) (dpi : Nat) :
    Option (Nat × Nat) :=
  let scale : ℚ := (dpi : ℚ) / 72
  let x0 : ℤ := max 0 (pyTrunc (bbox.x0 * scale))
  let y0 : ℤ := max 0 (pyTrunc (bbox.y0 * scale))
  let x1 : ℤ := min (imgW : ℤ) (pyTrunc (bbox.x1 * scale))
  let y1 : ℤ := min (imgH : ℤ) (pyTrunc (bbox.y1 * scale))
  if x1 < x0 ∨ y1 < y0 then none
  else some ((x1 - x0).toNat + 2 * CROP_PADDING, (y1 - y0).toNat + 2 * CROP_PADDING)

/-- The batch-splitting loop of `ocr_formulas`:
`for start in range(0, len(images), batch_size): images[start:start+batch_size]`.
`range(0, n, B)` has `⌈n / B⌉` elements (for `B ≥ 1`; with `B = 0` Python
raises `ValueError`, modelled as no batches). -/
def mkBatches {α : Type} (l : List α) (B : Nat) : List (List α) :=
  (List.range ((l.length + B - 1) / B)).map (fun i => (l.drop (i * B)).take B)

/-- The dispatch loop of `ocr_formulas`: one network call per batch, the
per-batch `try/except` turning a failed batch into zero results.  Returns
the accumulated `(region index, latex)` results and the number of network
calls issued.  (The thread pool dispatches batches concurrently; since the
indices produced by distinct batches are disjoint, merging in batch order
is equivalent to merging in completion order.) -/
def runBatches {α E : Type}
    (call : List α → Except E (List (Nat × List Char)))
    (batches : List (List α)) : List (Nat × List Char) × Nat :=
  batches.foldl (fun acc b =>
    match call b with
    | .ok r => (acc.1 ++ r, acc.2 + 1)
    | .error _ => (acc.1, acc.2 + 1)) ([], 0)

/-- Dict semantics of `all_results` (later insertions win). -/
def lookupLast (results : List (Nat × List Char)) (i : Nat) : Option (List Char) :=
  (results.reverse.find? (fun p => decide (p.1 = i))).map (fun p => p.2)

/-- `for idx, latex in all_results.items(): regions[idx].latex = latex`. -/
def applyResults (regions : List FormulaRegion)
    (results : List (Nat × List Char)) : List FormulaRegion :=
  regions.mapIdx (fun i r =>
    match lookupLast results i with
    | some l => { r with latex := l }
    | none => r)

/-- The image-preparation loop of `ocr_formulas`: regions whose page has no
rendered image are skipped; the others are cropped (a crop failure
propagates, as in Python) and paired with their region index. -/
def buildIndexed {E Img : Type} (crop : Img → Rect → Except E Img)
    (page_images : List (Nat × Img)) :
    List (Nat × FormulaRegion) → Except E (List (Nat × Img))
  | [] => .ok []
  | (i, r) :: rest =>
    match page_images.find? (fun p => decide (p.1 = r.page_num)) with
    | none => buildIndexed crop page_images rest
    | some pimg =>
      match crop pimg.2 r.bbox with
      | .error e => .error e
      | .ok img =>
        match buildIndexed crop page_images rest with
        | .error e => .error e
        | .ok restRes => .ok ((i, img) :: restRes)

/-- `ocr_formulas` from formula_ocr.py, with the crop operation and the
per-batch OpenRouter call (`_ocr_batch_openrouter`) as oracles.  Returns
the updated regions together with the number of network calls issued. -/
def ocr_formulas {E Img : Type} (crop : Img → Rect → Except E Img)
    (callBatch : List (Nat × Img) → Except E (List (Nat × List Char)))
    (regions : List FormulaRegion) (page_images : List (Nat × Img))
    (api_key : String) (batch_size : Nat) :
    Except E (List FormulaRegion × Nat) :=
  if regions.isEmpty ∨ api_key = "" then .ok (regions, 0)
  else
    match buildIndexed crop page_images regions.enum with
    | .error e => .error e
    | .ok indexed =>
      let rr := runBatches callBatch (mkBatches indexed batch_size)
      .ok (applyResults regions rr.1, rr.2)

/-- The detection loop of `_run_formula_ocr`: run the region detector over
pages `0 .. numPages - 1` in order, concatenating the regions; the first
exception propagates. -/
def runDetect {E : Type} (detect : Nat → Except E (List FormulaRegion)) :
    Nat → Except E (List FormulaRegion)
  | 0 => .ok []
  | n + 1 =>
    match runDetect detect n with
    | .error e => .error e
    | .ok rs =>
      match detect n with
      | .error e => .error e
      | .ok r => .ok (rs ++ r)

/-- The rendering loop of `_run_formula_ocr`: render each listed page once
at `RENDER_DPI`; the first exception propagates. -/
def renderPages {E Img : Type} (render : Nat → Except E Img) :
    List Nat → Except E (List (Nat × Img))
  | [] => .ok []
  | p :: ps =>
    match render p with
    | .error e => .error e
    | .ok img =>
      match renderPages render ps with
      | .error e => .error e
      | .ok rest => .ok ((p, img) :: rest)

/-- `_run_formula_ocr` from converter.py, with detection, rendering, crop,
and the per-batch network call as oracles.  Returns the patched (or, with
zero regions, the original joined) markdown together with the number of
render calls and the number of OCR network calls. -/
def run_formula_ocr {E Img : Type}
    (detect : Nat → Except E (List FormulaRegion))
    (render : Nat → Except E Img)
    (crop : Img → Rect → Except E Img)
    (callBatch : List (Nat × Img) → Except E (List (Nat × List Char)))
    (api_key : String) (numPages : Nat) (page_markdowns : List (List Char)) :
    Except E (List Char × Nat × Nat) :=
  match runDetect detect numPages with
  | .error e => .error e
  | .ok all_regions =>
    if all_regions.isEmpty then .ok (joinPages page_markdowns, 0, 0)
    else
      let pages := (all_regions.map (fun r => r.page_num)).dedup
      match renderPages render pages with
      | .error e => .error e
      | .ok page_images =>
        match ocr_formulas crop callBatch all_regions page_images api_key 30 with
        | .error e => .error e
        | .ok res => .ok (patch_markdown page_markdowns res.1, pages.length, res.2)

/-- The `try/except` boundary of `_run_hybrid` in converter.py: any
exception from `_run_formula_ocr` is caught and the original (joined)
per-page markdown is returned instead. -/
def run_hybrid {E Img : Type}
    (detect : Nat → Except E (List FormulaRegion))
    (render : Nat → Except E Img)
    (crop : Img → Rect → Except E Img)
    (callBatch : List (Nat × Img) → Except E (List (Nat × List Char)))
    (api_key : String) (numPages : Nat) (page_markdowns : List (List Char)) :
    List Char :=
  match run_formula_ocr detect render crop callBatch api_key numPages page_markdowns with
  | .ok res => res.1
  | .error _ => joinPages page_markdowns

/-! ### Properties of the pattern matcher -/

theorem fillerRun_le_cap (cap : Nat) (l : List Char) : fillerRun cap l ≤ cap := by
  induction l generalizing cap with
  | nil => cases cap <;> simp [fillerRun]
  | cons c t ih =>
    cases cap with
    | zero => simp [fillerRun]
    | succ m =>
      simp only [fillerRun]
      split
      · exact Nat.succ_le_succ (ih m)
      · exact Nat.zero_le _

theorem fillerRun_le_length (cap : Nat) (l : List Char) : fillerRun cap l ≤ l.length := by
  induction l generalizing cap with
  | nil => cases cap <;> simp [fillerRun]
  | cons c t ih =>
    cases cap with
    | zero => simp [fillerRun]
    | succ m =>
      simp only [fillerRun, List.length_cons]
      split
      · exact Nat.succ_le_succ (ih m)
      · exact Nat.zero_le _

theorem take_fillerRun_all (cap : Nat) (l : List Char) :
    (l.take (fillerRun cap l)).all isFiller = true := by
  induction l generalizing cap with
  | nil => cases cap <;> simp [fillerRun]
  | cons c t ih =>
    cases cap with
    | zero => simp [fillerRun]
    | succ m =>
      simp only [fillerRun]
      split
      · rename_i hf
        simp [List.take_succ_cons, hf, ih m]
      · simp

theorem le_fillerRun (cap n : Nat) (l : List Char) (hcap : n ≤ cap)
    (hall : (l.take n).all isFiller = true) (hlen : n ≤ l.length) :
    n ≤ fillerRun cap l := by
  induction n generalizing cap l with
  | zero => exact Nat.zero_le _
  | succ k ih =>
    cases l with
    | nil => simp at hlen
    | cons c t =>
      cases cap with
      | zero => omega
      | succ m =>
        simp only [List.take_succ_cons, List.all_cons, Bool.and_eq_true] at hall
        simp only [fillerRun, hall.1, if_true]
        exact Nat.succ_le_succ (ih m t (by omega) hall.2 (by simpa using hlen))

theorem all_take_of_le (p : Char → Bool) (k m : Nat) (l : List Char) (h : k ≤ m)
    (ha : (l.take m).all p = true) : (l.take k).all p = true := by
  have hsub : l.take k = (l.take m).take k := by
    rw [List.take_take, Nat.min_eq_left h]
  rw [hsub]
  rw [List.all_eq_true] at ha ⊢
  intro x hx
  exact ha x (List.take_subset _ _ hx)

theorem findSome?_isSome {α β : Type} (f : α → Option β) (l : List α) :
    (l.findSome? f).isSome = true ↔ ∃ a ∈ l, (f a).isSome = true := by
  induction l with
  | nil => simp [List.findSome?]
  | cons a t ih =>
    cases h : f a with
    | none => simp [List.findSome?_cons, h, ih]
    | some b => simp [List.findSome?_cons, h]

theorem findSome?_eq_some_ex {α β : Type} (f : α → Option β) (l : List α) (b : β)
    (h : l.findSome? f = some b) : ∃ a ∈ l, f a = some b := by
  induction l with
  | nil => simp [List.findSome?] at h
  | cons a t ih =>
    cases ha : f a with
    | none =>
      rw [List.findSome?_cons, ha] at h
      obtain ⟨x, hx, hfx⟩ := ih h
      exact ⟨x, List.mem_cons_of_mem _ hx, hfx⟩
    | some c =>
      simp only [List.findSome?_cons, ha] at h
      exact ⟨a, List.mem_cons_self _ _, by rw [ha, h]⟩

theorem specChain_cons_iff (c : Char) (rest : List Char) (t0 : Char) (t1 : List Char) :
    specChain (c :: rest) (t0 :: t1) = true ↔
      t0 = c ∧ ∃ k, k ≤ 6 ∧ (t1.take k).all isFiller = true ∧
        specChain rest (t1.drop k) = true := by
  simp only [specChain, Bool.and_eq_true, decide_eq_true_eq, List.any_eq_true,
    List.mem_range]
  constructor
  · rintro ⟨h1, k, hk, h2, h3⟩
    exact ⟨h1, k, by omega, h2, h3⟩
  · rintro ⟨h1, k, hk, h2, h3⟩
    exact ⟨h1, k, by omega, h2, h3⟩

theorem matchChain_cons_isSome (c : Char) (rest text : List Char) :
    (matchChain (c :: rest) text).isSome = true ↔
      ∃ k, k ≤ 6 ∧ (text.take k).all isFiller = true ∧
        ∃ t2, text.drop k = c :: t2 ∧ (matchChain rest t2).isSome = true := by
  rw [matchChain, findSome?_isSome]
  constructor
  · rintro ⟨k, hk, hsome⟩
    rw [List.mem_reverse, List.mem_range] at hk
    have hk6 : k ≤ 6 := le_trans (Nat.lt_succ_iff.mp hk) (fillerRun_le_cap 6 text)
    have hall : (text.take k).all isFiller = true :=
      all_take_of_le _ k (fillerRun 6 text) text (Nat.lt_succ_iff.mp hk)
        (take_fillerRun_all 6 text)
    rw [Option.isSome_iff_exists] at hsome
    obtain ⟨n, hsome⟩ := hsome
    split at hsome
    · exact absurd hsome (by simp)
    · rename_i c2 t2 hd
      split at hsome
      · rename_i hc
        subst hc
        rw [Option.map_eq_some'] at hsome
        obtain ⟨n2, hn2, _⟩ := hsome
        exact ⟨k, hk6, hall, t2, hd, by rw [hn2]; rfl⟩
      · exact absurd hsome (by simp)
  · rintro ⟨k, hk6, hall, t2, hd, hsome⟩
    refine ⟨k, ?_, ?_⟩
    · rw [List.mem_reverse, List.mem_range, Nat.lt_succ_iff]
      have hklen : k < text.length := by
        by_contra hge
        rw [List.drop_eq_nil_of_le (by omega)] at hd
        exact List.noConfusion hd
      exact le_fillerRun 6 k text hk6 hall (by omega)
    · rw [hd]
      rw [Option.isSome_iff_exists] at hsome
      obtain ⟨n2, hn2⟩ := hsome
      simp [hn2]

theorem matchChain_isSome_iff (anchors : List Char) : ∀ text : List Char,
    (matchChain anchors text).isSome = true ↔
      ∃ k, k ≤ 6 ∧ (text.take k).all isFiller = true ∧
        specChain anchors (text.drop k) = true := by
  induction anchors with
  | nil =>
    intro text
    simp only [matchChain, Option.isSome_some, true_iff]
    exact ⟨0, by omega, by simp, by simp [specChain]⟩
  | cons c rest ih =>
    intro text
    rw [matchChain_cons_isSome]
    constructor
    · rintro ⟨k, hk6, hall, t2, hd, hsome⟩
      obtain ⟨k2, hk26, hall2, hspec2⟩ := (ih t2).mp hsome
      refine ⟨k, hk6, hall, ?_⟩
      rw [hd, specChain_cons_iff]
      exact ⟨rfl, k2, hk26, hall2, hspec2⟩
    · rintro ⟨k, hk6, hall, hspec⟩
      cases hd : text.drop k with
      | nil => rw [hd] at hspec; simp [specChain] at hspec
      | cons t0 t1 =>
        rw [hd, specChain_cons_iff] at hspec
        obtain ⟨ht0, k2, hk2, hall2, hspec2⟩ := hspec
        subst ht0
        exact ⟨k, hk6, hall, t1, hd, (ih t1).mpr ⟨k2, hk2, hall2, hspec2⟩⟩

theorem searchAux_isSome_iff (anchors : List Char) : ∀ (text : List Char) (pos : Nat),
    (searchAux anchors text pos).isSome = true ↔
      ∃ s, (matchChain anchors (text.drop s)).isSome = true := by
  intro text
  induction text with
  | nil =>
    intro pos
    cases h : matchChain anchors [] with
    | none =>
      simp only [searchAux, h]
      constructor
      · intro hs
        exact absurd hs (by simp)
      · rintro ⟨s, hs⟩
        rw [List.drop_nil, h] at hs
        exact absurd hs (by simp)
    | some n =>
      simp only [searchAux, h, Option.isSome_some, true_iff]
      exact ⟨0, by simp [h]⟩
  | cons c t ih =>
    intro pos
    cases h : matchChain anchors (c :: t) with
    | some n =>
      simp only [searchAux, h, Option.isSome_some, true_iff]
      exact ⟨0, by simp [h]⟩
    | none =>
      simp only [searchAux, h]
      rw [ih (pos + 1)]
      constructor
      · rintro ⟨s, hs⟩
        exact ⟨s + 1, by simpa using hs⟩
      · rintro ⟨s, hs⟩
        cases s with
        | zero =>
          rw [List.drop_zero, h] at hs
          exact absurd hs (by simp)
        | succ s2 => exact ⟨s2, by simpa using hs⟩

theorem search_isSome_iff (anchors text : List Char) :
    (search anchors text).isSome = true ↔ specMatchable anchors text = true := by
  rw [search, searchAux_isSome_iff]
  unfold specMatchable
  rw [List.any_eq_true]
  constructor
  · rintro ⟨s, hs⟩
    obtain ⟨k, _, _, hspec⟩ := (matchChain_isSome_iff anchors (text.drop s)).mp hs
    have hdd : (text.drop s).drop k = text.drop (s + k) := by
      rw [List.drop_drop]
    rw [hdd] at hspec
    refine ⟨min (s + k) text.length, List.mem_range.mpr (by omega), ?_⟩
    rcases le_or_lt (s + k) text.length with hle | hgt
    · rwa [min_eq_left hle]
    · rw [min_eq_right (by omega)]
      rw [List.drop_eq_nil_of_le (by omega)] at hspec
      rwa [List.drop_eq_nil_of_le (le_refl _)]
  · rintro ⟨s, _, hspec⟩
    exact ⟨s, (matchChain_isSome_iff anchors (text.drop s)).mpr
      ⟨0, by omega, by simp, by simpa using hspec⟩⟩

theorem matchChain_le_length (anchors : List Char) : ∀ (text : List Char) (n : Nat),
    matchChain anchors text = some n → n ≤ text.length := by
  induction anchors with
  | nil =>
    intro text n h
    simp only [matchChain, Option.some_inj] at h
    subst h
    exact fillerRun_le_length 6 text
  | cons c rest ih =>
    intro text n h
    obtain ⟨k, hk, hsome⟩ := findSome?_eq_some_ex _ _ _ h
    split at hsome
    · exact absurd hsome (by simp)
    · rename_i c2 t2 hd
      split at hsome
      · rename_i hc
        rw [Option.map_eq_some'] at hsome
        obtain ⟨n2, hn2, hn⟩ := hsome
        have h1 := ih t2 n2 hn2
        have hklen : k < text.length := by
          by_contra hge
          rw [List.drop_eq_nil_of_le (by omega)] at hd
          exact List.noConfusion hd
        have h2 : t2.length = text.length - k - 1 := by
          have hlen := congrArg List.length hd
          rw [List.length_drop, List.length_cons] at hlen
          omega
        omega
      · exact absurd hsome (by simp)

theorem matchChain_specConsumed (anchors : List Char) : ∀ (text : List Char) (n : Nat),
    matchChain anchors text = some n → specConsumed anchors (text.take n) = true := by
  induction anchors with
  | nil =>
    intro text n h
    simp only [matchChain, Option.some_inj] at h
    subst h
    simp only [specConsumed, Bool.and_eq_true, decide_eq_true_eq]
    constructor
    · rw [List.length_take]
      have := fillerRun_le_cap 6 text
      omega
    · exact take_fillerRun_all 6 text
  | cons c rest ih =>
    intro text n h
    obtain ⟨k, hk, hsome⟩ := findSome?_eq_some_ex _ _ _ h
    rw [List.mem_reverse, List.mem_range, Nat.lt_succ_iff] at hk
    split at hsome
    · exact absurd hsome (by simp)
    · rename_i c2 t2 hd
      split at hsome
      · rename_i hc
        subst hc
        rw [Option.map_eq_some'] at hsome
        obtain ⟨n2, hn2, hn⟩ := hsome
        subst hn
        simp only [specConsumed, List.any_eq_true, List.mem_range]
        refine ⟨k, by have := fillerRun_le_cap 6 text; omega, ?_⟩
        rw [Bool.and_eq_true]
        constructor
        · rw [List.take_take, Nat.min_eq_left (by omega)]
          exact all_take_of_le _ k (fillerRun 6 text) text hk (take_fillerRun_all 6 text)
        · rw [List.drop_take, hd]
          have hnk : k + 1 + n2 - k = n2 + 1 := by omega
          rw [hnk, List.take_succ_cons]
          simp [ih t2 n2 hn2]
      · exact absurd hsome (by simp)

theorem searchAux_spec (anchors : List Char) : ∀ (text : List Char) (pos s e : Nat),
    searchAux anchors text pos = some (s, e) →
      pos ≤ s ∧ s ≤ e ∧ s ≤ pos + text.length ∧
        matchChain anchors (text.drop (s - pos)) = some (e - s) := by
  intro text
  induction text with
  | nil =>
    intro pos s e h
    cases hm : matchChain anchors [] with
    | none =>
      rw [searchAux, hm] at h
      exact absurd h (by simp)
    | some n =>
      rw [searchAux, hm] at h
      simp only [Option.some_inj, Prod.mk.injEq] at h
      obtain ⟨hs, he⟩ := h
      subst hs
      subst he
      refine ⟨le_refl _, by omega, by simp, ?_⟩
      simpa using hm
  | cons c t ih =>
    intro pos s e h
    cases hm : matchChain anchors (c :: t) with
    | some n =>
      rw [searchAux, hm] at h
      simp only [Option.some_inj, Prod.mk.injEq] at h
      obtain ⟨hs, he⟩ := h
      subst hs
      subst he
      refine ⟨le_refl _, by omega, by simp, ?_⟩
      simpa using hm
    | none =>
      rw [searchAux, hm] at h
      obtain ⟨h1, h2, h3, h4⟩ := ih (pos + 1) s e h
      rw [List.length_cons]
      refine ⟨by omega, h2, by omega, ?_⟩
      have hss : s - pos = (s - (pos + 1)) + 1 := by omega
      rw [hss]
      simpa using h4

theorem search_spec (anchors text : List Char) (s e : Nat)
    (h : search anchors text = some (s, e)) :
    s ≤ e ∧ e ≤ text.length ∧
      specConsumed anchors ((text.drop s).take (e - s)) = true := by
  obtain ⟨h1, h2, h3, h4⟩ := searchAux_spec anchors text 0 s e h
  simp only [Nat.sub_zero, Nat.zero_add] at h3 h4
  have hb := matchChain_le_length anchors _ _ h4
  rw [List.length_drop] at hb
  exact ⟨h2, by omega, matchChain_specConsumed anchors _ _ h4⟩

/-! ### Properties of the patcher -/

theorem patchRegion_empty_latex (md : List Char) (r : FormulaRegion)
    (h : r.latex = []) : patchRegion md r = md := by
  simp [patchRegion, h, pyStrip]

theorem patchRegion_no_match (md : List Char) (r : FormulaRegion) (anchors : List Char)
    (hp : build_search_pattern r.raw_chars = some anchors)
    (hs : search anchors md = none) : patchRegion md r = md := by
  unfold patchRegion
  split
  · rfl
  · simp only [hp, hs]

theorem patchPage_nil (md : List Char) : patchPage md [] = md := rfl

theorem mem_insertDesc (x r : FormulaRegion) (l : List FormulaRegion) :
    x ∈ insertDesc r l ↔ x = r ∨ x ∈ l := by
  induction l with
  | nil => simp [insertDesc]
  | cons a t ih =>
    simp only [insertDesc]
    split
    · simp only [List.mem_cons, ih]
      tauto
    · simp [List.mem_cons]

theorem mem_sortByLenDesc_aux (l : List FormulaRegion) (x : FormulaRegion) :
    ∀ acc, (x ∈ l.foldl (fun acc r => insertDesc r acc) acc ↔ x ∈ acc ∨ x ∈ l) := by
  induction l with
  | nil => intro acc; simp
  | cons a t ih =>
    intro acc
    simp only [List.foldl_cons]
    rw [ih (insertDesc a acc), mem_insertDesc]
    simp only [List.mem_cons]
    tauto

theorem mem_sortByLenDesc (l : List FormulaRegion) (x : FormulaRegion) :
    x ∈ sortByLenDesc l ↔ x ∈ l := by
  rw [sortByLenDesc, mem_sortByLenDesc_aux]
  simp

theorem foldl_patchRegion_noop (l : List FormulaRegion) (md : List Char)
    (h : ∀ r ∈ l, ∀ m : List Char, patchRegion m r = m) :
    l.foldl patchRegion md = md := by
  induction l generalizing md with
  | nil => rfl
  | cons a t ih =>
    rw [List.foldl_cons, h a (List.mem_cons_self _ _) md]
    exact ih md (fun r hr m => h r (List.mem_cons_of_mem _ hr) m)

theorem patch_markdown_nil (pages : List (List Char)) :
    patch_markdown pages [] = joinPages pages := by
  unfold patch_markdown
  simp only [List.filter_nil, patchPage_nil]
  congr 1
  exact List.enum_map_snd pages

theorem patch_markdown_all_empty (pages : List (List Char))
    (regions : List FormulaRegion) (h : ∀ r ∈ regions, r.latex = ([] : List Char)) :
    patch_markdown pages regions = joinPages pages := by
  unfold patch_markdown
  have hmap : ∀ pr ∈ pages.enum,
      patchPage pr.2 (regions.filter (fun r => decide (r.page_num = pr.1))) = pr.2 := by
    intro pr _
    unfold patchPage
    apply foldl_patchRegion_noop
    intro r hr m
    rw [mem_sortByLenDesc] at hr
    exact patchRegion_empty_latex m r (h r (List.mem_filter.mp hr).1)
  rw [List.map_congr_left hmap]
  congr 1
  exact List.enum_map_snd pages

/-! ### Claims about the fuzzy matcher / patcher -/

/-- C2: `patch_markdown` never raises for any valid input (it is a total
function of this model by construction); with an empty region list it
returns the pages joined unchanged; a region with empty `latex` never
alters its page; and a region whose `raw_chars` pattern has no match in
the current page text leaves that page byte-identical. -/
theorem claim_C2 :
    (∀ pages : List (List Char), patch_markdown pages [] = joinPages pages)
  ∧ (∀ (pages : List (List Char)) (regions : List FormulaRegion),
      (∀ r ∈ regions, r.latex = ([] : List Char)) →
      patch_markdown pages regions = joinPages pages)
  ∧ (∀ (md : List Char) (r : FormulaRegion), r.latex = [] → patchRegion md r = md)
  ∧ (∀ (md : List Char) (r : FormulaRegion) (anchors : List Char),
      build_search_pattern r.raw_chars = some anchors →
      search anchors md = none → patchRegion md r = md) :=
  ⟨patch_markdown_nil, patch_markdown_all_empty, patchRegion_empty_latex,
   patchRegion_no_match⟩

/-- Witness for C2 at concrete inputs: a region with empty latex, and a
region with latex but no match in the page, both leave the page unchanged. -/
theorem claim_C2_witness :
    patch_markdown ["ab".data] [⟨0, ⟨0, 0, 1, 1⟩, false, [], "xy".data, []⟩] =
      joinPages ["ab".data]
  ∧ patchRegion "ab".data ⟨0, ⟨0, 0, 1, 1⟩, false, [], "xy".data, []⟩ = "ab".data
  ∧ patchRegion "ab".data ⟨0, ⟨0, 0, 1, 1⟩, false, [], "xy".data, "L".data⟩ =
      "ab".data :=
  ⟨claim_C2.2.1 ["ab".data] [⟨0, ⟨0, 0, 1, 1⟩, false, [], "xy".data, []⟩]
      (by decide),
   claim_C2.2.2.1 "ab".data ⟨0, ⟨0, 0, 1, 1⟩, false, [], "xy".data, []⟩ rfl,
   claim_C2.2.2.2 "ab".data ⟨0, ⟨0, 0, 1, 1⟩, false, [], "xy".data, "L".data⟩
      "xy".data rfl (by decide)⟩

/-- C5: `build_search_pattern` returns no pattern for inputs shorter than
2 characters; for inputs of length at least 2 it returns a pattern that
matches a string exactly where the input characters appear in order with
at most 6 filler characters between consecutive characters; in particular
the pattern for "x2+y2" matches "_x_ [2] + _y_ [2]" but not an unrelated
string. -/
theorem claim_C5 :
    (∀ raw : List Char, raw.length < 2 → build_search_pattern raw = none)
  ∧ (∀ raw : List Char, 2 ≤ raw.length →
      build_search_pattern raw = some raw ∧
      ∀ text : List Char,
        ((search raw text).isSome = true ↔ specMatchable raw text = true))
  ∧ (search "x2+y2".data "_x_ [2] + _y_ [2]".data).isSome = true
  ∧ search "x2+y2".data "hello world".data = none := by
  refine ⟨?_, ?_, by decide, by decide⟩
  · intro raw h
    rw [build_search_pattern, if_pos h]
  · intro raw h
    refine ⟨by rw [build_search_pattern, if_neg (by omega)], ?_⟩
    intro text
    exact search_isSome_iff raw text

/-- Witness for C5 at concrete inputs. -/
theorem claim_C5_witness :
    build_search_pattern "x".data = none
  ∧ ((search "xy".data "a_xy".data).isSome = true ↔
      specMatchable "xy".data "a_xy".data = true) :=
  ⟨claim_C5.1 "x".data (by decide),
   (claim_C5.2.1 "xy".data (by decide)).2 "a_xy".data⟩

/-- C10: every span consumed by a successful `search` consists of the
anchor characters in order with at most 6 filler characters before the
first anchor, between consecutive anchors, and after the last anchor, so
patching consumes up to 6 adjacent filler characters on each side; in
particular patching page "a _xy_ b" for a region with raw characters "xy"
and latex "L" yields "a$L$b". -/
theorem claim_C10 :
    (∀ (anchors text : List Char) (s e : Nat), search anchors text = some (s, e) →
      s ≤ e ∧ e ≤ text.length ∧
        specConsumed anchors ((text.drop s).take (e - s)) = true)
  ∧ patch_markdown ["a _xy_ b".data]
      [⟨0, ⟨0, 0, 1, 1⟩, false, [], "xy".data, "L".data⟩] = "a$L$b".data :=
  ⟨search_spec, by decide⟩

/-- Witness for C10: the match on "a _xy_ b" spans positions 1 to 7 and
the consumed slice " _xy_ " has the filler-anchor-filler shape. -/
theorem claim_C10_witness :
    (1 : Nat) ≤ 7 ∧ 7 ≤ ("a _xy_ b".data).length ∧
      specConsumed "xy".data ((("a _xy_ b".data).drop 1).take (7 - 1)) = true :=
  claim_C10.1 "xy".data "a _xy_ b".data 1 7 (by decide)

/-! ### Properties of the region detector and merger -/

theorem extract_append (a b : List Span) :
    _extract_raw_chars (a ++ b) = _extract_raw_chars a ++ _extract_raw_chars b := by
  simp [_extract_raw_chars]

theorem exists_nonblank_of_raw_ne_nil (spans : List Span)
    (h : _extract_raw_chars spans ≠ []) : ∃ s ∈ spans, spanBlank s = false := by
  by_contra hall
  push_neg at hall
  apply h
  unfold _extract_raw_chars
  rw [List.flatten_eq_nil_iff]
  intro l hl
  rw [List.mem_map] at hl
  obtain ⟨s, hs, rfl⟩ := hl
  have hb : spanBlank s = true := by
    have hne := hall s hs
    cases hsb : spanBlank s
    · exact absurd hsb hne
    · rfl
  rw [spanBlank, List.all_eq_true] at hb
  rw [List.filter_eq_nil_iff]
  intro c hc
  rw [hb c hc]
  simp

theorem mem_dropWhile_of_not (p : Span → Bool) (l : List Span) (x : Span)
    (hx : x ∈ l) (hpx : p x = false) : x ∈ l.dropWhile p := by
  induction l with
  | nil => cases hx
  | cons a t ih =>
    rw [List.dropWhile_cons]
    split
    · rename_i hpa
      rcases List.mem_cons.mp hx with rfl | hxt
      · rw [hpa] at hpx
        cases hpx
      · exact ih hxt
    · exact hx

theorem stripBlankEnds_ne_nil (spans : List Span)
    (h : ∃ s ∈ spans, spanBlank s = false) : stripBlankEnds spans ≠ [] := by
  obtain ⟨s, hs, hb⟩ := h
  unfold stripBlankEnds
  intro hcon
  rw [List.reverse_eq_nil_iff, List.dropWhile_eq_nil_iff] at hcon
  have hmem1 : s ∈ spans.dropWhile spanBlank := mem_dropWhile_of_not _ _ _ hs hb
  have hmem2 : s ∈ (spans.dropWhile spanBlank).reverse := List.mem_reverse.mpr hmem1
  have := hcon s hmem2
  rw [hb] at this
  cases this

theorem _build_region_isSome (page_num : Nat) (math_spans : List Span)
    (page_width : ℚ) (line_spans : List Span) :
    (_build_region page_num math_spans page_width line_spans).isSome = true ↔
      (3 ≤ (_extract_raw_chars math_spans).length ∨
        (2 ≤ (_extract_raw_chars math_spans).length ∧
          _has_math_structure math_spans = true)) := by
  simp only [_build_region, MIN_FORMULA_CHARS]
  by_cases hg : (_extract_raw_chars math_spans).length < 3 ∧
      ((_extract_raw_chars math_spans).length < 2 ∨
        _has_math_structure math_spans = false)
  · rw [if_pos hg]
    simp only [Option.isSome_none, Bool.false_eq_true, false_iff]
    rintro (h3 | ⟨h2, hs⟩)
    · omega
    · rcases hg.2 with hlt | hsf
      · omega
      · rw [hs] at hsf
        cases hsf
  · rw [if_neg hg]
    have hlen2 : 2 ≤ (_extract_raw_chars math_spans).length := by
      rcases Nat.lt_or_ge (_extract_raw_chars math_spans).length 3 with hl3 | hg3
      · by_contra hlt
        push_neg at hlt
        exact hg ⟨hl3, Or.inl hlt⟩
      · omega
    have hraw : _extract_raw_chars math_spans ≠ [] := by
      intro hnil
      rw [hnil] at hlen2
      simp at hlen2
    have hne : stripBlankEnds math_spans ≠ [] :=
      stripBlankEnds_ne_nil _ (exists_nonblank_of_raw_ne_nil _ hraw)
    have hie : (stripBlankEnds math_spans).isEmpty = false := by
      cases hsb : stripBlankEnds math_spans
      · exact absurd hsb hne
      · rfl
    rw [hie]
    simp only [Bool.false_eq_true, if_false]
    cases hsb : stripBlankEnds math_spans with
    | nil => exact absurd hsb hne
    | cons b rest =>
      simp only [Option.isSome_some, true_iff]
      rcases Nat.lt_or_ge (_extract_raw_chars math_spans).length 3 with hl3 | hg3
      · right
        refine ⟨hlen2, ?_⟩
        cases hst : _has_math_structure math_spans
        · exact absurd ⟨hl3, Or.inr hst⟩ hg
        · rfl
      · left
        exact hg3

theorem _build_region_raw (p : Nat) (ms : List Span) (w : ℚ) (ls : List Span)
    (r : FormulaRegion) (h : _build_region p ms w ls = some r) :
    r.raw_chars = _extract_raw_chars r.spans := by
  simp only [_build_region] at h
  split at h
  · exact absurd h (by simp)
  · split at h
    · exact absurd h (by simp)
    · rename_i b rest hbs
      simp only [Option.some_inj] at h
      subst h
      rfl

theorem mergeLoop_raw (xT : ℚ) : ∀ (rest : List FormulaRegion) (cur : FormulaRegion),
    cur.raw_chars = _extract_raw_chars cur.spans →
    (∀ r ∈ rest, r.raw_chars = _extract_raw_chars r.spans) →
    ∀ r ∈ mergeLoop xT cur rest, r.raw_chars = _extract_raw_chars r.spans := by
  intro rest
  induction rest with
  | nil =>
    intro cur hcur _ r hr
    simp only [mergeLoop, List.mem_singleton] at hr
    subst hr
    exact hcur
  | cons nxt t ih =>
    intro cur hcur hrest r hr
    rw [mergeLoop] at hr
    split at hr
    · refine ih (mergeTwo cur nxt) ?_ ?_ r hr
      · show (mergeTwo cur nxt).raw_chars = _extract_raw_chars (mergeTwo cur nxt).spans
        simp only [mergeTwo]
        rw [extract_append, ← hcur, ← hrest nxt (List.mem_cons_self _ _)]
      · intro q hq
        exact hrest q (List.mem_cons_of_mem _ hq)
    · rcases List.mem_cons.mp hr with rfl | hr2
      · exact hcur
      · exact ih nxt (hrest nxt (List.mem_cons_self _ _))
          (fun q hq => hrest q (List.mem_cons_of_mem _ hq)) r hr2

theorem merge_raw (regs : List FormulaRegion) (xT : ℚ)
    (h : ∀ r ∈ regs, r.raw_chars = _extract_raw_chars r.spans) :
    ∀ r ∈ _merge_nearby_regions regs xT, r.raw_chars = _extract_raw_chars r.spans := by
  cases regs with
  | nil =>
    intro r hr
    simp [_merge_nearby_regions] at hr
  | cons a t =>
    exact mergeLoop_raw xT t a (h a (List.mem_cons_self _ _))
      (fun q hq => h q (List.mem_cons_of_mem _ hq))

/-! ### Claims about the detector and the raw-character invariant -/

/-- C4: a candidate group of consecutive math-font runs is kept by the
detector exactly when its raw-character count is at least 3, or its
raw-character count is at least 2 and the group has math structure (a
superscript flag or more than one distinct font); in particular a
length-1 candidate with no structural flags is discarded and a length-2
candidate with a superscript flag is kept. -/
theorem claim_C4 :
    (∀ (page_num : Nat) (math_spans : List Span) (page_width : ℚ)
        (line_spans : List Span),
      (_build_region page_num math_spans page_width line_spans).isSome = true ↔
        (3 ≤ (_extract_raw_chars math_spans).length ∨
          (2 ≤ (_extract_raw_chars math_spans).length ∧
            _has_math_structure math_spans = true)))
  ∧ _build_region 0 [⟨"x".data, "CMMI10", 0, ⟨0, 0, 1, 1⟩⟩] 100 [] = none
  ∧ (_build_region 0 [⟨"x2".data, "CMMI10", 1, ⟨0, 0, 1, 1⟩⟩] 100 []).isSome = true :=
  ⟨_build_region_isSome, by decide, by decide⟩

/-- C9: every region built by the detector, and every region produced by
the merger from regions satisfying the invariant, satisfies
`raw_chars = _extract_raw_chars spans`; the extraction is an append
homomorphism (so merging preserves it), and extraction is the
order-preserving whitespace-stripped concatenation: for span texts
"x " and "+ y" it gives "x+y". -/
theorem claim_C9 :
    (∀ (p : Nat) (ms : List Span) (w : ℚ) (ls : List Span) (r : FormulaRegion),
      _build_region p ms w ls = some r → r.raw_chars = _extract_raw_chars r.spans)
  ∧ (∀ (regs : List FormulaRegion) (xT : ℚ),
      (∀ r ∈ regs, r.raw_chars = _extract_raw_chars r.spans) →
      ∀ r ∈ _merge_nearby_regions regs xT,
        r.raw_chars = _extract_raw_chars r.spans)
  ∧ (∀ a b : List Span,
      _extract_raw_chars (a ++ b) = _extract_raw_chars a ++ _extract_raw_chars b)
  ∧ _extract_raw_chars [⟨"x ".data, "CMMI10", 0, ⟨0, 0, 1, 1⟩⟩,
      ⟨"+ y".data, "CMR10", 0, ⟨1, 0, 2, 1⟩⟩] = "x+y".data :=
  ⟨_build_region_raw, merge_raw, extract_append, by decide⟩

/-- Witness for C9: the merger applied to two concrete regions (on
different pages, so they pass through unmerged) preserves the invariant
for the first output region. -/
theorem claim_C9_witness :
    (⟨0, ⟨0, 0, 1, 1⟩, false, [⟨"x ".data, "CMMI10", 0, ⟨0, 0, 1, 1⟩⟩],
      "x".data, []⟩ : FormulaRegion).raw_chars =
      _extract_raw_chars (⟨0, ⟨0, 0, 1, 1⟩, false,
        [⟨"x ".data, "CMMI10", 0, ⟨0, 0, 1, 1⟩⟩], "x".data, []⟩ :
          FormulaRegion).spans :=
  claim_C9.2.1
    [⟨0, ⟨0, 0, 1, 1⟩, false, [⟨"x ".data, "CMMI10", 0, ⟨0, 0, 1, 1⟩⟩],
      "x".data, []⟩,
     ⟨1, ⟨0, 0, 1, 1⟩, false, [⟨"+ y".data, "CMR10", 0, ⟨0, 0, 1, 1⟩⟩],
      "+y".data, []⟩] 3 (by decide)
    ⟨0, ⟨0, 0, 1, 1⟩, false, [⟨"x ".data, "CMMI10", 0, ⟨0, 0, 1, 1⟩⟩],
      "x".data, []⟩ (by decide)

/-- Witness for C4: a length-3 raw-character group is kept. -/
theorem claim_C4_witness :
    (_build_region 0 [⟨"x+y".data, "CMMI10", 0, ⟨0, 0, 1, 1⟩⟩] 100 []).isSome =
        true ↔
      (3 ≤ (_extract_raw_chars [⟨"x+y".data, "CMMI10", 0, ⟨0, 0, 1, 1⟩⟩]).length ∨
        (2 ≤ (_extract_raw_chars
            [⟨"x+y".data, "CMMI10", 0, ⟨0, 0, 1, 1⟩⟩]).length ∧
          _has_math_structure [⟨"x+y".data, "CMMI10", 0, ⟨0, 0, 1, 1⟩⟩] = true)) :=
  claim_C4.1 0 [⟨"x+y".data, "CMMI10", 0, ⟨0, 0, 1, 1⟩⟩] 100 []

/-! ### Claim about the region merger -/

/-- C3 (amended): for a consecutive pair of regions, if they are on the
same page, their vertical overlap is strictly more than 50% of the shorter
region's height (the code uses a strict comparison, not "at least"), and
the horizontal gap is below the 3-unit threshold, the merger turns the
pair into exactly one region whose bbox is the union, whose `is_display`
is the OR, and whose `raw_chars` is the concatenation in encounter order;
a pair on different pages, or with gap not below the threshold, never
merges. -/
theorem claim_C3 : ∀ r1 r2 : FormulaRegion,
    ((r1.page_num = r2.page_num ∧
      0 < min (r1.bbox.y1 - r1.bbox.y0) (r2.bbox.y1 - r2.bbox.y0) ∧
      min (r1.bbox.y1 - r1.bbox.y0) (r2.bbox.y1 - r2.bbox.y0) / 2 <
        max 0 (min r1.bbox.y1 r2.bbox.y1 - max r1.bbox.y0 r2.bbox.y0) ∧
      r2.bbox.x0 - r1.bbox.x1 < 3) →
      _merge_nearby_regions [r1, r2] 3 =
        [⟨r1.page_num,
          ⟨min r1.bbox.x0 r2.bbox.x0, min r1.bbox.y0 r2.bbox.y0,
           max r1.bbox.x1 r2.bbox.x1, max r1.bbox.y1 r2.bbox.y1⟩,
          r1.is_display || r2.is_display,
          r1.spans ++ r2.spans,
          r1.raw_chars ++ r2.raw_chars, []⟩])
  ∧ ((r1.page_num ≠ r2.page_num ∨ ¬(r2.bbox.x0 - r1.bbox.x1 < 3)) →
      _merge_nearby_regions [r1, r2] 3 = [r1, r2]) := by
  intro r1 r2
  constructor
  · rintro ⟨hpage, hmin, hov, hgap⟩
    have hsm : shouldMerge r1 r2 3 = true := by
      rw [shouldMerge]
      rw [Bool.and_eq_true, Bool.and_eq_true, Bool.and_eq_true]
      refine ⟨⟨decide_eq_true hpage, decide_eq_true hmin, ?_⟩,
        decide_eq_true hgap⟩
      rw [decide_eq_true_eq]
      rw [div_lt_div_iff₀ (by norm_num : (0:ℚ) < 2) hmin]
      rw [div_lt_iff₀ (by norm_num : (0:ℚ) < 2)] at hov
      linarith
    simp [_merge_nearby_regions, mergeLoop, hsm, mergeTwo]
  · intro hdisj
    have hsm : shouldMerge r1 r2 3 = false := by
      rcases hdisj with hpage | hgap
      · rw [shouldMerge, decide_eq_false hpage]
        simp
      · rw [shouldMerge, decide_eq_false hgap]
        simp
    simp [_merge_nearby_regions, mergeLoop, hsm]

/-- C3 counterexample: two same-page regions whose vertical overlap is
exactly 50% of the shorter height (so "at least 50%" holds) with zero
horizontal gap are NOT merged: the code's comparison is strict. -/
theorem claim_C3_counterexample :
    min (((2:ℚ)) - 0) (3 - 1) / 2 ≤ max 0 (min ((2:ℚ)) 3 - max 0 1)
  ∧ ((1:ℚ) - 1 < 3)
  ∧ _merge_nearby_regions
      [⟨0, ⟨0, 0, 1, 2⟩, false, [], "abc".data, []⟩,
       ⟨0, ⟨1, 1, 2, 3⟩, false, [], "uvw".data, []⟩] 3 =
      [⟨0, ⟨0, 0, 1, 2⟩, false, [], "abc".data, []⟩,
       ⟨0, ⟨1, 1, 2, 3⟩, false, [], "uvw".data, []⟩] := by
  refine ⟨by norm_num, by norm_num, ?_⟩
  have hsm : shouldMerge
      ⟨0, ⟨0, 0, 1, 2⟩, false, [], "abc".data, []⟩
      ⟨0, ⟨1, 1, 2, 3⟩, false, [], "uvw".data, []⟩ 3 = false := by
    rw [shouldMerge]
    have hr : decide ((1:ℚ)/2 <
        max 0 (min ((2:ℚ)) 3 - max 0 1) / min (((2:ℚ)) - 0) ((3:ℚ) - 1)) =
        false := by
      rw [decide_eq_false_iff_not]
      norm_num
    simp only [hr, Bool.and_false, Bool.false_and]
  simp [_merge_nearby_regions, mergeLoop, hsm]

/-- Witness for C3 at concrete regions, both branches. -/
theorem claim_C3_witness :
    _merge_nearby_regions
      [⟨0, ⟨0, 0, 1, 2⟩, false, [], "ab".data, []⟩,
       ⟨0, ⟨1, 0, 2, 2⟩, false, [], "cd".data, []⟩] 3 =
      [⟨(⟨0, ⟨0, 0, 1, 2⟩, false, [], "ab".data, []⟩ : FormulaRegion).page_num,
        ⟨min (0:ℚ) 1, min (0:ℚ) 0, max (1:ℚ) 2, max (2:ℚ) 2⟩,
        false || false, [] ++ [], "ab".data ++ "cd".data, []⟩]
  ∧ _merge_nearby_regions
      [⟨0, ⟨0, 0, 1, 2⟩, false, [], "ab".data, []⟩,
       ⟨1, ⟨1, 0, 2, 2⟩, false, [], "cd".data, []⟩] 3 =
      [⟨0, ⟨0, 0, 1, 2⟩, false, [], "ab".data, []⟩,
       ⟨1, ⟨1, 0, 2, 2⟩, false, [], "cd".data, []⟩] :=
  ⟨(claim_C3 ⟨0, ⟨0, 0, 1, 2⟩, false, [], "ab".data, []⟩
      ⟨0, ⟨1, 0, 2, 2⟩, false, [], "cd".data, []⟩).1
      ⟨rfl, by norm_num, by norm_num, by norm_num⟩,
   (claim_C3 ⟨0, ⟨0, 0, 1, 2⟩, false, [], "ab".data, []⟩
      ⟨1, ⟨1, 0, 2, 2⟩, false, [], "cd".data, []⟩).2
      (Or.inl (by norm_num))⟩

/-! ### Claim about the image preparer -/

theorem pyTrunc_mono (q r : ℚ) (h : q ≤ r) : pyTrunc q ≤ pyTrunc r := by
  unfold pyTrunc
  split
  · rename_i hq
    rw [if_pos (le_trans hq h)]
    exact Int.floor_le_floor h
  · rename_i hq
    push_neg at hq
    split
    · rename_i hr
      calc ⌈q⌉ ≤ (0:ℤ) := Int.ceil_le.mpr (by exact_mod_cast le_of_lt hq)
        _ ≤ ⌊r⌋ := Int.floor_nonneg.mpr hr
    · exact Int.ceil_le_ceil h

/-- C6 (amended): for a normalized bbox whose scaled and truncated
coordinates are not strictly outside the bitmap, `crop_formula_image`
clamps the pixel coordinates into the bitmap (never requesting geometry
outside it) and returns an image whose width and height are the clamped
crop's dimensions plus `2 * CROP_PADDING = 10`.  (For a bbox strictly
outside the bitmap the clamped box is inverted and PIL `Image.crop`
raises `ValueError` — see the counterexample — so the original claim's
"wholly outside ... never fails" is false.) -/
theorem claim_C6 (imgW imgH : Nat) (bbox : Rect) (dpi : Nat)
    (hx : bbox.x0 ≤ bbox.x1) (hy : bbox.y0 ≤ bbox.y1)
    (hx0 : pyTrunc (bbox.x0 * ((dpi : ℚ) / 72)) ≤ (imgW : ℤ))
    (hx1 : 0 ≤ pyTrunc (bbox.x1 * ((dpi : ℚ) / 72)))
    (hy0 : pyTrunc (bbox.y0 * ((dpi : ℚ) / 72)) ≤ (imgH : ℤ))
    (hy1 : 0 ≤ pyTrunc (bbox.y1 * ((dpi : ℚ) / 72))) :
    crop_formula_image imgW imgH bbox dpi =
      some ((min (imgW : ℤ) (pyTrunc (bbox.x1 * ((dpi : ℚ) / 72))) -
              max 0 (pyTrunc (bbox.x0 * ((dpi : ℚ) / 72)))).toNat +
              2 * CROP_PADDING,
            (min (imgH : ℤ) (pyTrunc (bbox.y1 * ((dpi : ℚ) / 72))) -
              max 0 (pyTrunc (bbox.y0 * ((dpi : ℚ) / 72)))).toNat +
              2 * CROP_PADDING)
  ∧ max 0 (pyTrunc (bbox.x0 * ((dpi : ℚ) / 72))) ≤
      min (imgW : ℤ) (pyTrunc (bbox.x1 * ((dpi : ℚ) / 72)))
  ∧ max 0 (pyTrunc (bbox.y0 * ((dpi : ℚ) / 72))) ≤
      min (imgH : ℤ) (pyTrunc (bbox.y1 * ((dpi : ℚ) / 72))) := by
  have hs : (0:ℚ) ≤ (dpi : ℚ) / 72 := by positivity
  have hmx : pyTrunc (bbox.x0 * ((dpi : ℚ) / 72)) ≤
      pyTrunc (bbox.x1 * ((dpi : ℚ) / 72)) :=
    pyTrunc_mono _ _ (mul_le_mul_of_nonneg_right hx hs)
  have hmy : pyTrunc (bbox.y0 * ((dpi : ℚ) / 72)) ≤
      pyTrunc (bbox.y1 * ((dpi : ℚ) / 72)) :=
    pyTrunc_mono _ _ (mul_le_mul_of_nonneg_right hy hs)
  have hcx : max 0 (pyTrunc (bbox.x0 * ((dpi : ℚ) / 72))) ≤
      min (imgW : ℤ) (pyTrunc (bbox.x1 * ((dpi : ℚ) / 72))) := by
    apply max_le
    · exact le_min (Int.ofNat_nonneg imgW) hx1
    · exact le_min hx0 hmx
  have hcy : max 0 (pyTrunc (bbox.y0 * ((dpi : ℚ) / 72))) ≤
      min (imgH : ℤ) (pyTrunc (bbox.y1 * ((dpi : ℚ) / 72))) := by
    apply max_le
    · exact le_min (Int.ofNat_nonneg imgH) hy1
    · exact le_min hy0 hmy
  refine ⟨?_, hcx, hcy⟩
  simp only [crop_formula_image]
  rw [if_neg]
  push_neg
  exact ⟨hcx, hcy⟩

/-- C6 counterexample: a bbox wholly to the right of the bitmap yields an
inverted clamped box; PIL `Image.crop` raises `ValueError` (modelled as
`none`), contradicting the claim that the function never fails for boxes
wholly outside the bitmap. -/
theorem claim_C6_counterexample :
    crop_formula_image 100 100 ⟨200, 0, 300, 10⟩ 72 = none := by
  have h200 : pyTrunc ((200:ℚ) * (((72:Nat) : ℚ) / 72)) = 200 := by
    unfold pyTrunc
    rw [if_pos (by norm_num)]
    norm_num
  have h300 : pyTrunc ((300:ℚ) * (((72:Nat) : ℚ) / 72)) = 300 := by
    unfold pyTrunc
    rw [if_pos (by norm_num)]
    norm_num
  simp only [crop_formula_image]
  rw [if_pos]
  left
  rw [h200, h300]
  norm_num [min_def, max_def]

/-- Witness for C6: a 50 x 40 point box at the origin of a 1000 x 1000
bitmap at dpi 72 is cropped and padded without failure. -/
theorem claim_C6_witness :
    crop_formula_image 1000 1000 ⟨0, 0, 50, 40⟩ 72 =
      some ((min ((1000:Nat) : ℤ) (pyTrunc ((50:ℚ) * (((72:Nat) : ℚ) / 72))) -
              max 0 (pyTrunc ((0:ℚ) * (((72:Nat) : ℚ) / 72)))).toNat +
              2 * CROP_PADDING,
            (min ((1000:Nat) : ℤ) (pyTrunc ((40:ℚ) * (((72:Nat) : ℚ) / 72))) -
              max 0 (pyTrunc ((0:ℚ) * (((72:Nat) : ℚ) / 72)))).toNat +
              2 * CROP_PADDING)
  ∧ max 0 (pyTrunc ((0:ℚ) * (((72:Nat) : ℚ) / 72))) ≤
      min ((1000:Nat) : ℤ) (pyTrunc ((50:ℚ) * (((72:Nat) : ℚ) / 72)))
  ∧ max 0 (pyTrunc ((0:ℚ) * (((72:Nat) : ℚ) / 72))) ≤
      min ((1000:Nat) : ℤ) (pyTrunc ((40:ℚ) * (((72:Nat) : ℚ) / 72))) :=
  claim_C6 1000 1000 ⟨0, 0, 50, 40⟩ 72 (by norm_num) (by norm_num)
    (by simp only [pyTrunc]; norm_num)
    (by simp only [pyTrunc]; norm_num)
    (by simp only [pyTrunc]; norm_num)
    (by simp only [pyTrunc]; norm_num)

/-! ### Properties of the batch dispatcher and orchestrator -/

theorem mkBatches_length {α : Type} (l : List α) (B : Nat) :
    (mkBatches l B).length = (l.length + B - 1) / B := by
  simp [mkBatches]

theorem mkBatches_join_aux {α : Type} (l : List α) (B : Nat) : ∀ k : Nat,
    ((List.range k).map (fun i => (l.drop (i * B)).take B)).flatten =
      l.take (k * B) := by
  intro k
  induction k with
  | zero => simp
  | succ n ih =>
    rw [List.range_succ, List.map_append, List.flatten_append, ih]
    simp only [List.map_cons, List.map_nil, List.flatten_cons, List.flatten_nil,
      List.append_nil]
    rw [← List.take_add]
    congr 1
    ring

theorem lt_of_lt_ceil (n B i : Nat) (hB : 0 < B) (hi : i < (n + B - 1) / B) :
    i * B < n := by
  have h2 : (i + 1) * B ≤ ((n + B - 1) / B) * B := Nat.mul_le_mul_right _ hi
  have h3 : ((n + B - 1) / B) * B ≤ n + B - 1 := Nat.div_mul_le_self _ _
  have h4 : (i + 1) * B = i * B + B := by ring
  omega

theorem mkBatches_flatten {α : Type} (l : List α) (B : Nat) (hB : 0 < B) :
    (mkBatches l B).flatten = l := by
  rw [mkBatches, mkBatches_join_aux]
  apply List.take_of_length_le
  have h := Nat.div_add_mod (l.length + B - 1) B
  have hlt := Nat.mod_lt (l.length + B - 1) hB
  rw [Nat.mul_comm]
  omega

theorem mkBatches_sizes {α : Type} (l : List α) (B : Nat) (hB : 0 < B) :
    ∀ b ∈ mkBatches l B, 0 < b.length ∧ b.length ≤ B := by
  intro b hb
  rw [mkBatches, List.mem_map] at hb
  obtain ⟨i, hi, rfl⟩ := hb
  rw [List.mem_range] at hi
  have hib : i * B < l.length := lt_of_lt_ceil l.length B i hB hi
  constructor
  · rw [List.length_take, List.length_drop]
    omega
  · rw [List.length_take]
    exact min_le_left _ _

theorem mkBatches_dropLast {α : Type} (l : List α) (B : Nat) (hB : 0 < B) :
    ∀ b ∈ (mkBatches l B).dropLast, b.length = B := by
  intro b hb
  rw [mkBatches] at hb
  cases hk : (l.length + B - 1) / B with
  | zero =>
    rw [hk] at hb
    simp at hb
  | succ m =>
    rw [hk, List.range_succ, List.map_append] at hb
    simp only [List.map_cons, List.map_nil] at hb
    rw [List.dropLast_concat, List.mem_map] at hb
    obtain ⟨i, hi, rfl⟩ := hb
    rw [List.mem_range] at hi
    have hib : (i + 1) * B < l.length := by
      apply lt_of_lt_ceil l.length B (i + 1) hB
      omega
    have h4 : (i + 1) * B = i * B + B := by ring
    rw [List.length_take, List.length_drop, Nat.min_eq_left (by omega)]

theorem runBatches_foldl {α E : Type}
    (call : List α → Except E (List (Nat × List Char))) :
    ∀ (batches : List (List α)) (acc : List (Nat × List Char) × Nat),
    batches.foldl (fun acc b =>
      match call b with
      | .ok r => (acc.1 ++ r, acc.2 + 1)
      | .error _ => (acc.1, acc.2 + 1)) acc =
    (acc.1 ++ (batches.map (fun b =>
        match call b with
        | .ok r => r
        | .error _ => [])).flatten,
      acc.2 + batches.length) := by
  intro batches
  induction batches with
  | nil => intro acc; simp
  | cons b t ih =>
    intro acc
    rw [List.foldl_cons]
    cases hc : call b with
    | ok r =>
      simp only [hc]
      rw [ih]
      simp only [List.map_cons, List.flatten_cons, List.length_cons, hc,
        Prod.mk.injEq]
      exact ⟨by rw [List.append_assoc], by omega⟩
    | error e =>
      simp only [hc]
      rw [ih]
      simp only [List.map_cons, List.flatten_cons, List.length_cons, hc,
        List.nil_append, Prod.mk.injEq]
      exact ⟨by simp, by omega⟩

theorem runBatches_eq {α E : Type}
    (call : List α → Except E (List (Nat × List Char)))
    (batches : List (List α)) :
    runBatches call batches =
      ((batches.map (fun b =>
          match call b with
          | .ok r => r
          | .error _ => [])).flatten,
        batches.length) := by
  rw [runBatches, runBatches_foldl]
  simp

theorem runBatches_mem {α E : Type}
    (call : List α → Except E (List (Nat × List Char)))
    (batches : List (List α)) (b : List α) (hb : b ∈ batches)
    (r : List (Nat × List Char)) (hr : call b = .ok r) :
    ∀ x ∈ r, x ∈ (runBatches call batches).1 := by
  intro x hx
  rw [runBatches_eq]
  rw [List.mem_flatten]
  exact ⟨r, List.mem_map.mpr ⟨b, hb, by rw [hr]⟩, hx⟩

/-! ### Claims about dispatch, OCR no-op, and the orchestrator -/

/-- C7: for N indexed images and batch size B > 0 the dispatcher produces
exactly ⌈N/B⌉ contiguous batches in order (all of size B except possibly
the last, which is nonempty), issues exactly one network call per batch,
and a failing batch contributes no results while never preventing the
results of the other batches from being recorded. -/
theorem claim_C7 : ∀ (α E : Type) (l : List α) (B : Nat), 0 < B →
    ∀ call : List α → Except E (List (Nat × List Char)),
      (mkBatches l B).length = (l.length + B - 1) / B
    ∧ (mkBatches l B).flatten = l
    ∧ (∀ b ∈ (mkBatches l B).dropLast, b.length = B)
    ∧ (∀ b ∈ mkBatches l B, 0 < b.length ∧ b.length ≤ B)
    ∧ (runBatches call (mkBatches l B)).2 = (mkBatches l B).length
    ∧ (runBatches call (mkBatches l B)).1 =
        ((mkBatches l B).map (fun b =>
          match call b with
          | .ok r => r
          | .error _ => [])).flatten
    ∧ (∀ b ∈ mkBatches l B, ∀ r, call b = .ok r →
        ∀ x ∈ r, x ∈ (runBatches call (mkBatches l B)).1) := by
  intro α E l B hB call
  refine ⟨mkBatches_length l B, mkBatches_flatten l B hB, mkBatches_dropLast l B hB,
    mkBatches_sizes l B hB, ?_, ?_, ?_⟩
  · rw [runBatches_eq]
  · rw [runBatches_eq]
  · intro b hb r hr
    exact runBatches_mem call (mkBatches l B) b hb r hr

/-- Witness for C7 with three images and batch size two. -/
theorem claim_C7_witness :
    (mkBatches ([10, 20, 30] : List Nat) 2).length =
      (([10, 20, 30] : List Nat).length + 2 - 1) / 2
  ∧ (runBatches (fun _ => (Except.error () : Except Unit (List (Nat × List Char))))
      (mkBatches ([10, 20, 30] : List Nat) 2)).2 =
      (mkBatches ([10, 20, 30] : List Nat) 2).length :=
  ⟨(claim_C7 Nat Unit [10, 20, 30] 2 (by decide) (fun _ => Except.error ())).1,
   (claim_C7 Nat Unit [10, 20, 30] 2 (by decide)
      (fun _ => Except.error ())).2.2.2.2.1⟩

/-- C8: `ocr_formulas` with an empty region list, or with an empty API
credential, returns the regions unchanged (all `latex` fields as they
were) and performs zero network calls. -/
theorem claim_C8 : ∀ (E Img : Type) (crop : Img → Rect → Except E Img)
    (callBatch : List (Nat × Img) → Except E (List (Nat × List Char)))
    (regions : List FormulaRegion) (page_images : List (Nat × Img))
    (api_key : String) (batch_size : Nat),
    regions = [] ∨ api_key = "" →
    ocr_formulas crop callBatch regions page_images api_key batch_size =
      .ok (regions, 0) := by
  intro E Img crop cb regions pimgs key bs h
  rw [ocr_formulas, if_pos]
  rcases h with h | h
  · left
    rw [h]
    rfl
  · right
    exact h

/-- Witness for C8: a non-empty region list with an empty credential is
returned unchanged with zero network calls. -/
theorem claim_C8_witness :
    ocr_formulas (fun (i : Unit) (_ : Rect) => (Except.ok i : Except Unit Unit))
      (fun _ => (Except.ok [] : Except Unit (List (Nat × List Char))))
      [⟨0, ⟨0, 0, 1, 1⟩, false, [], "xy".data, []⟩] [] "" 30 =
      Except.ok ([⟨0, ⟨0, 0, 1, 1⟩, false, [], "xy".data, []⟩], 0) :=
  claim_C8 Unit Unit (fun i _ => Except.ok i) (fun _ => Except.ok [])
    [⟨0, ⟨0, 0, 1, 1⟩, false, [], "xy".data, []⟩] [] "" 30 (Or.inr rfl)

theorem runDetect_empty {E : Type} (detect : Nat → Except E (List FormulaRegion))
    (n : Nat) (h : ∀ p, p < n → detect p = .ok []) :
    runDetect detect n = .ok [] := by
  induction n with
  | zero => rfl
  | succ m ih =>
    have h1 : runDetect detect m = .ok [] := ih (fun p hp => h p (by omega))
    have h2 : detect m = .ok [] := h m (by omega)
    rw [runDetect, h1, h2]
    rfl

theorem run_formula_ocr_ok_shape {E Img : Type}
    (detect : Nat → Except E (List FormulaRegion)) (render : Nat → Except E Img)
    (crop : Img → Rect → Except E Img)
    (callBatch : List (Nat × Img) → Except E (List (Nat × List Char)))
    (api_key : String) (numPages : Nat) (pageMds : List (List Char))
    (res : List Char × Nat × Nat)
    (hf : run_formula_ocr detect render crop callBatch api_key numPages pageMds =
      .ok res) :
    res.1 = joinPages pageMds ∨
      ∃ regs : List FormulaRegion, res.1 = patch_markdown pageMds regs := by
  simp only [run_formula_ocr] at hf
  split at hf
  · exact absurd hf (by simp)
  · split at hf
    · left
      simp only [Except.ok.injEq] at hf
      rw [← hf]
    · split at hf
      · exact absurd hf (by simp)
      · split at hf
        · exact absurd hf (by simp)
        · rename_i ores ho
          right
          simp only [Except.ok.injEq] at hf
          exact ⟨ores.1, by rw [← hf]⟩

/-- C1: if region detection finds zero regions on every page, the
orchestrator returns the original per-page markdown joined, with zero
render calls and zero OCR network calls; any error from the formula-OCR
stage is caught by `run_hybrid`, which then returns the original joined
markdown; and `run_hybrid` always returns either the original joined
markdown or a patched version of it — never a propagated exception. -/
theorem claim_C1 :
    (∀ (E Img : Type) (detect : Nat → Except E (List FormulaRegion))
        (render : Nat → Except E Img) (crop : Img → Rect → Except E Img)
        (callBatch : List (Nat × Img) → Except E (List (Nat × List Char)))
        (api_key : String) (numPages : Nat) (pageMds : List (List Char)),
      (∀ p, p < numPages → detect p = .ok []) →
      run_formula_ocr detect render crop callBatch api_key numPages pageMds =
        .ok (joinPages pageMds, 0, 0))
  ∧ (∀ (E Img : Type) (detect : Nat → Except E (List FormulaRegion))
        (render : Nat → Except E Img) (crop : Img → Rect → Except E Img)
        (callBatch : List (Nat × Img) → Except E (List (Nat × List Char)))
        (api_key : String) (numPages : Nat) (pageMds : List (List Char))
        (e : E),
      run_formula_ocr detect render crop callBatch api_key numPages pageMds =
        .error e →
      run_hybrid detect render crop callBatch api_key numPages pageMds =
        joinPages pageMds)
  ∧ (∀ (E Img : Type) (detect : Nat → Except E (List FormulaRegion))
        (render : Nat → Except E Img) (crop : Img → Rect → Except E Img)
        (callBatch : List (Nat × Img) → Except E (List (Nat × List Char)))
        (api_key : String) (numPages : Nat) (pageMds : List (List Char)),
      run_hybrid detect render crop callBatch api_key numPages pageMds =
          joinPages pageMds ∨
        ∃ regs : List FormulaRegion,
          run_hybrid detect render crop callBatch api_key numPages pageMds =
            patch_markdown pageMds regs) := by
  refine ⟨?_, ?_, ?_⟩
  · intro E Img detect render crop cb key n pageMds h
    rw [run_formula_ocr, runDetect_empty detect n h]
    rfl
  · intro E Img detect render crop cb key n pageMds e h
    rw [run_hybrid, h]
  · intro E Img detect render crop cb key n pageMds
    cases hf : run_formula_ocr detect render crop cb key n pageMds with
    | error e =>
      left
      rw [run_hybrid, hf]
    | ok res =>
      have hsh := run_formula_ocr_ok_shape detect render crop cb key n pageMds res hf
      have hrh : run_hybrid detect render crop cb key n pageMds = res.1 := by
        rw [run_hybrid, hf]
      rcases hsh with h | ⟨regs, h⟩
      · left
        rw [hrh, h]
      · right
        exact ⟨regs, by rw [hrh, h]⟩

/-- Witness for C1: zero detected regions give the joined original pages
with zero render and OCR calls; a failing detector makes `run_hybrid`
return the joined original pages. -/
theorem claim_C1_witness :
    run_formula_ocr (fun _ => (Except.ok [] : Except Unit (List FormulaRegion)))
      (fun _ => (Except.ok () : Except Unit Unit))
      (fun i _ => (Except.ok i : Except Unit Unit))
      (fun _ => (Except.ok [] : Except Unit (List (Nat × List Char))))
      "k" 2 ["p1".data, "p2".data] =
      Except.ok (joinPages ["p1".data, "p2".data], 0, 0)
  ∧ run_hybrid (fun _ => (Except.error () : Except Unit (List FormulaRegion)))
      (fun _ => (Except.ok () : Except Unit Unit))
      (fun i _ => (Except.ok i : Except Unit Unit))
      (fun _ => (Except.ok [] : Except Unit (List (Nat × List Char))))
      "k" 1 ["p1".data] = joinPages ["p1".data] :=
  ⟨claim_C1.1 Unit Unit (fun _ => Except.ok []) (fun _ => Except.ok ())
      (fun i _ => Except.ok i) (fun _ => Except.ok []) "k" 2
      ["p1".data, "p2".data] (fun _ _ => rfl),
   claim_C1.2.1 Unit Unit (fun _ => Except.error ()) (fun _ => Except.ok ())
      (fun i _ => Except.ok i) (fun _ => Except.ok []) "k" 1 ["p1".data] ()
      rfl⟩

end Pdf2Md
